import Mathlib

set_option maxRecDepth 8000

/-!
Verification of the MEET sushi chef crawler/archiver (`chef.py`) against its
natural-language specification.  The Python source is shallowly embedded:
pure helpers become Lean functions, HTML documents become an inductive tree,
network and randomness become explicit oracle parameters, and Python
exceptions become `Except` values.
-/

/-! ## Character-list string helpers

Python string primitives used by `chef.py` (`split`, `strip`, `lower`,
`replace`, slicing) are modelled over `List Char` so that every definition
evaluates by kernel reduction. -/

/-- Split a character list at the first occurrence of `sep`, returning the
parts before and after it; `none` when `sep` does not occur. -/
def splitFirstSub (sep : List Char) : List Char → Option (List Char × List Char)
  | [] => none
  | c :: cs =>
    if sep.isPrefixOf (c :: cs) then some ([], (c :: cs).drop sep.length)
    else match splitFirstSub sep cs with
      | some (a, b) => some (c :: a, b)
      | none => none

/-- Whether `sep` occurs as a contiguous substring of `l`. -/
def containsSub (sep l : List Char) : Bool := (splitFirstSub sep l).isSome

/-- Characters strictly before the first occurrence of `c` (the whole list
when `c` is absent): models cutting a URL at `?` or at a fragment marker. -/
def takeUntilChar (c : Char) (l : List Char) : List Char := l.takeWhile (· ≠ c)

/-- Characters after the last `/` (the whole list when there is no `/`):
models both `url.split(sep).pop` and `os.path.basename`. -/
def afterLastSlash (l : List Char) : List Char :=
  ((l.reverse.takeWhile (· ≠ '/'))).reverse

/-- Python `str.strip()`. -/
def pyStrip (s : String) : String :=
  String.mk (((s.toList.dropWhile Char.isWhitespace).reverse.dropWhile
    Char.isWhitespace).reverse)

/-- Python `str.lower()` (ASCII letters, which is all the source feeds it). -/
def pyLower (s : String) : String := String.mk (s.toList.map Char.toLower)

/-- Split a character list on a separator character (chunks may be empty). -/
def splitOnChar (c : Char) : List Char → List (List Char)
  | [] => [[]]
  | d :: ds =>
    if d = c then [] :: splitOnChar c ds
    else match splitOnChar c ds with
      | [] => [[d]]
      | a :: rest => (d :: a) :: rest

/-! ## HTML documents

`BeautifulSoup(html, "html.parser")` produces a tree of tags and strings;
`chef.py` only reads tag names, attributes, children and text. -/

/-- A parsed HTML node: an element with tag name, attributes (in document
order) and children, or a text node. -/
inductive Html where
  | elem (tag : String) (attrs : List (String × String)) (children : List Html)
  | text (s : String)

/-- A parsed document is the soup's list of top-level nodes. -/
abbrev Doc := List Html

/-- First value bound to attribute `key`, as `tag[key]` / `tag.get(key)`. -/
def getAttr (key : String) : Html → Option String
  | .elem _ attrs _ => (attrs.find? (fun p => p.1 = key)).map (fun p => p.2)
  | .text _ => none

/-- The whitespace-separated tokens of a `class` attribute value. -/
def classChunks (v : String) : List (List Char) :=
  (splitOnChar ' ' v.toList).filter (fun l => l ≠ [])

/-- Whether an element with attribute list `attrs` carries CSS class `c`. -/
def hasClass (c : String) (attrs : List (String × String)) : Bool :=
  match (attrs.find? (fun p => p.1 = "class")).map (fun p => p.2) with
  | some v => (classChunks v).contains c.toList
  | none => false

mutual
/-- Concatenated text of a node (`tag.text` in BeautifulSoup). -/
def textOf : Html → String
  | .elem _ _ cs => textOfList cs
  | .text s => s
def textOfList : List Html → String
  | [] => ""
  | c :: cs => textOf c ++ textOfList cs
end

/-! ## CSS selectors

The selectors `chef.py` uses are descendant chains of simple selectors, with
one `nth-of-type` pseudo-class that only ever appears on the final
(target) simple selector. -/

/-- A simple CSS selector: optional tag name, optional id, required classes,
and required exact attribute values. -/
structure SimpleSel where
  tagName : Option String
  idName : Option String
  classes : List String
  attrVals : List (String × String)
deriving DecidableEq

/-- A selector as used in `chef.py`: ancestor simple selectors (outermost
first, separated by descendant combinators), the target simple selector and
an optional `nth-of-type` index on the target. -/
structure Selector where
  ancs : List SimpleSel
  target : SimpleSel
  nth : Option Nat
deriving DecidableEq

/-- The value of attribute `key` in an attribute list, if present. -/
def attrValOf (key : String) (attrs : List (String × String)) : Option String :=
  (attrs.find? (fun p => p.1 = key)).map (fun p => p.2)

/-- Whether the optional tag-name constraint accepts tag `tag`. -/
def tagOk (t : Option String) (tag : String) : Bool :=
  match t with
  | none => true
  | some t => t = tag

/-- Whether the optional id constraint accepts attribute list `attrs`. -/
def idOk (i : Option String) (attrs : List (String × String)) : Bool :=
  match i with
  | none => true
  | some i => attrValOf "id" attrs = some i

/-- Whether a simple selector matches an element with the given tag name and
attributes. -/
def matchesSimple (s : SimpleSel) (tag : String) (attrs : List (String × String)) : Bool :=
  tagOk s.tagName tag && idOk s.idName attrs &&
  s.classes.all (fun c => hasClass c attrs) &&
  s.attrVals.all (fun kv => attrValOf kv.1 attrs = some kv.2)

/-- An ancestor frame: tag name and attributes of an enclosing element. -/
abbrev Frame := String × List (String × String)

/-- Whether the simple selectors match some root-to-leaf ordered subsequence
of the ancestor frames (CSS descendant combinator semantics). -/
def subseqMatch : List SimpleSel → List Frame → Bool
  | [], _ => true
  | _ :: _, [] => false
  | s :: ss, f :: fs =>
    (matchesSimple s f.1 f.2 && subseqMatch ss fs) || subseqMatch (s :: ss) fs

/-- Number of elements with tag `t` in a node list (used for
`nth-of-type`: position among same-tag siblings). -/
def countTag (t : String) : List Html → Nat
  | [] => 0
  | .elem t' _ _ :: rest => (if t' = t then 1 else 0) + countTag t rest
  | .text _ :: rest => countTag t rest

/-- Whether the `nth-of-type` constraint accepts 1-based position `pos`. -/
def nthOk (n : Option Nat) (pos : Nat) : Bool :=
  match n with | none => true | some k => k = pos

/-- Whether a node matches `sel` given the frames of its ancestors and the
original list of its preceding siblings (for `nth-of-type` counting). -/
def nodeMatches (sel : Selector) (anc : List Frame) (prev : List Html) : Html → Bool
  | .text _ => false
  | .elem t a _ =>
    matchesSimple sel.target t a && nthOk sel.nth (countTag t prev + 1) &&
      subseqMatch sel.ancs anc

mutual
/-- All elements matching `sel`, in document (pre-)order: `doc.select(sel)`.
`anc` holds the frames of the enclosing elements, `prev` the preceding
siblings of the first node in the list. -/
def selectNode (sel : Selector) (anc : List Frame) (prev : List Html) : Html → List Html
  | .text _ => []
  | .elem t a cs =>
    (if nodeMatches sel anc prev (.elem t a cs) then [Html.elem t a cs] else []) ++
      selectList sel (anc ++ [(t, a)]) [] cs
def selectList (sel : Selector) (anc : List Frame) (prev : List Html) : List Html → List Html
  | [] => []
  | c :: cs => selectNode sel anc prev c ++ selectList sel anc (prev ++ [c]) cs
end

/-- `doc.select(sel)` at the document root. -/
def docSelect (sel : Selector) (d : Doc) : List Html := selectList sel [] [] d

/-- `doc.select_one(sel)`: first match in document order, if any. -/
def docSelectOne (sel : Selector) (d : Doc) : Option Html := (docSelect sel d).head?

/-- `tag.select(sel)` scoped inside one element (searches its descendants;
all scoped selectors in `chef.py` are ancestor-free simple selectors). -/
def selectInside (sel : Selector) : Html → List Html
  | .elem t a cs => selectList sel [(t, a)] [] cs
  | .text _ => []

/-- `tag.select_one(sel)` scoped inside one element. -/
def selectInsideOne (sel : Selector) (n : Html) : Option Html := (selectInside sel n).head?

/-! ## Removal of matched nodes

`for node in doc.select(selector): node.decompose()` — all matches are
computed against the current document, then removed with their subtrees.
Positions for `nth-of-type` therefore refer to the pre-removal sibling
lists, which is why `prev` accumulates removed nodes too. -/

mutual
def removeNode (sel : Selector) (anc : List Frame) : Html → Html
  | .text s => .text s
  | .elem t a cs => .elem t a (removeList sel (anc ++ [(t, a)]) [] cs)
def removeList (sel : Selector) (anc : List Frame) (prev : List Html) : List Html → List Html
  | [] => []
  | c :: cs =>
    if nodeMatches sel anc prev c then removeList sel anc (prev ++ [c]) cs
    else removeNode sel anc c :: removeList sel anc (prev ++ [c]) cs
end

mutual
/-- Whether any element in the tree matches `sel`. -/
def anyMatchNode (sel : Selector) (anc : List Frame) (prev : List Html) : Html → Bool
  | .text _ => false
  | .elem t a cs =>
    nodeMatches sel anc prev (.elem t a cs) || anyMatchList sel (anc ++ [(t, a)]) [] cs
def anyMatchList (sel : Selector) (anc : List Frame) (prev : List Html) : List Html → Bool
  | [] => false
  | c :: cs => anyMatchNode sel anc prev c || anyMatchList sel anc (prev ++ [c]) cs
end

/-- The fourteen exclusion selectors of `download_content_node`
(`nodes_to_remove`, chef.py lines 209–224), in source order. -/
def nodes_to_remove : List Selector :=
  [ ⟨[], ⟨some "header", none, [], []⟩, none⟩,
    ⟨[], ⟨none, some "page-top-header", [], []⟩, none⟩,
    ⟨[], ⟨none, some "block-region-side-pre", [], []⟩, none⟩,
    ⟨[⟨none, some "region-main", [], []⟩, ⟨none, none, ["row-fluid"], []⟩],
      ⟨none, none, ["span4", "heading-rts"], []⟩, none⟩,
    ⟨[], ⟨none, none, ["readmoreLinks"], []⟩, none⟩,
    ⟨[], ⟨none, none, ["courseSectionNext"], []⟩, none⟩,
    ⟨[], ⟨some "img", none, [], [("alt", "next")]⟩, none⟩,
    ⟨[], ⟨none, none, ["modified"], []⟩, none⟩,
    ⟨[], ⟨none, none, ["footer-rts"], []⟩, none⟩,
    ⟨[], ⟨none, some "page-footer", [], []⟩, none⟩,
    ⟨[], ⟨none, none, ["back-to-top"], []⟩, none⟩,
    ⟨[], ⟨none, none, ["skiplinks"], []⟩, none⟩,
    ⟨[], ⟨none, none, ["linkicon"], []⟩, none⟩,
    ⟨[⟨none, none, ["generalbox"], []⟩, ⟨some "table", none, [], []⟩],
      ⟨some "tr", none, [], []⟩, some 2⟩ ]

/-- The removal loop of `download_content_node` (chef.py lines 225–227):
each selector's matches are removed in turn. -/
def sanitizeDoc (d : Doc) : Doc :=
  nodes_to_remove.foldl (fun d sel => removeList sel [] [] d) d

/-! ## URL helpers and general helpers (chef.py lines 193–259) -/

/-- `urlparse(url).path` for the URLs the chef handles: drop the fragment,
drop the query, drop `scheme://netloc`, keep the leading `/` of the path. -/
def urlPath (url : String) : List Char :=
  let cs := takeUntilChar '?' (takeUntilChar '#' url.toList)
  match splitFirstSub "://".toList cs with
  | none => cs
  | some (_, rest) =>
    match splitFirstSub ['/'] rest with
    | none => []
    | some (_, p) => '/' :: p

/-- The last `/`-separated segment of the whole URL string:
`url.split('/')[-1]` (note: query and fragment are still attached). -/
def urlLastSegment (url : String) : List Char := afterLastSlash url.toList

/-- `derive_filename` (chef.py lines 193–197).  The fresh
`uuid.uuid4().hex` token is passed in as `tok`; the source draws a new
random token on every call that reaches the second branch. -/
def derive_filename (tok : String) (url : String) : String :=
  if urlLastSegment url = "all".toList then "all.css"
  else
    pyLower (tok ++ "." ++
      String.mk ((afterLastSlash (urlPath url)).map (fun c => if c = '%' then '_' else c)))

/-- `truncate_metadata` (chef.py lines 246–250): Python slicing
`data_string[:190]` keeps the first 190 characters. -/
def truncate_metadata (data_string : String) : String :=
  if data_string.length > 190 then String.mk (data_string.toList.take 190) ++ " ..."
  else data_string

/-- `url_blacklist` (chef.py lines 253–259). -/
def url_blacklist : List String :=
  ["analytics.js", "yui_combo.php", "fontawesome-webfont", "dnd_arrow", "pic1.jpg"]

/-- Whether an asset URL matches the denylist (substring match). -/
def blacklisted (url : String) : Bool :=
  url_blacklist.any (fun b => containsSub b.toList url.toList)

/-! ## `make_request` (chef.py lines 262–280)

The network is an oracle mapping the 0-based attempt number to that
attempt's outcome.  `chef.py` line 275 returns `Dummy404ResponseObject`,
a name that is neither defined nor imported anywhere in the module, so
reaching it raises `NameError` instead of returning a sentinel response. -/

/-- Outcome of one `sess.get` attempt. -/
inductive NetResult where
  | ok (status : Nat) (body : String)
  | connError
  | readTimeout

/-- Result of `make_request`: a response, or the `NameError` raised by
evaluating the undefined name `Dummy404ResponseObject` on line 275. -/
inductive ReqOutcome where
  | resp (status : Nat) (body : String)
  | nameErrorDummy404
deriving DecidableEq

/-- The retry loop of `make_request`, returning the outcome and the list of
`time.sleep` durations performed.  `rc` is `retry_count`; the fuel argument
is `max_retries - retry_count` and is only a structural-termination device
(the loop exits no later than `retry_count = 5`). -/
def make_request_go (net : Nat → NetResult) : Nat → Nat → ReqOutcome × List Nat
  | 0, _ => (.nameErrorDummy404, [])
  | fuel + 1, rc =>
    match net rc with
    | .ok status body => (.resp status body, [])
    | .connError | .readTimeout =>
      if rc + 1 ≥ 5 then (.nameErrorDummy404, [rc + 1])
      else
        let p := make_request_go net fuel (rc + 1)
        (p.1, (rc + 1) :: p.2)

/-- `make_request` (chef.py lines 262–280): up to `max_retries = 5` GET
attempts with `time.sleep(retry_count * 1)` after each failure. -/
def make_request (net : Nat → NetResult) : ReqOutcome × List Nat :=
  make_request_go net 5 0

/-! ## Static-asset archiving

Modelled from the spec: `download_static_assets` and
`create_predictable_zip` are external `ricecooker` functions (chef.py only
imports and parameterises them); §4.4 steps 2–3 and 6 of the spec describe
their contract, which is embedded here.  Asset references are the `src`
attributes of elements and the `href` attributes of `link` elements; a
denylisted reference is dropped from the page and never fetched; any other
reference is fetched and rewritten to the filename `derive_filename`
produces.  `toks` is the stream of fresh `uuid.uuid4().hex` tokens (indexed
by how many have been drawn so far) and `assets` maps an asset URL to the
fetched content bytes. -/

/-- Whether attribute `attrName` of a `tag` element is a static-asset
reference. -/
def isAssetAttr (tag attrName : String) : Bool :=
  attrName = "src" || (attrName = "href" && tag = "link")

/-- Result of rewriting one attribute list: the new attributes, the fetch
requests issued, the saved `(local filename, content)` pairs, and the index
of the next unused token. -/
structure AttrsOut where
  attrs : List (String × String)
  reqs : List String
  files : List (String × String)
  next : Nat
deriving DecidableEq

/-- Process the attributes of one element in order. -/
def processAttrs (toks : Nat → String) (assets : String → String) (tag : String) :
    List (String × String) → Nat → AttrsOut
  | [], k => ⟨[], [], [], k⟩
  | (key, v) :: rest, k =>
    if isAssetAttr tag key then
      if blacklisted v then processAttrs toks assets tag rest k
      else
        let fname := derive_filename (toks k) v
        let k1 := if urlLastSegment v = "all".toList then k else k + 1
        let r := processAttrs toks assets tag rest k1
        ⟨(key, fname) :: r.attrs, v :: r.reqs, (fname, assets v) :: r.files, r.next⟩
    else
      let r := processAttrs toks assets tag rest k
      ⟨(key, v) :: r.attrs, r.reqs, r.files, r.next⟩

/-- Result of archiving the assets of a node list. -/
structure DsaOut where
  out : List Html
  reqs : List String
  files : List (String × String)
  next : Nat

mutual
/-- Archive the asset references of one node. -/
def dsaNode (toks : Nat → String) (assets : String → String) (k : Nat) :
    Html → Html × List String × List (String × String) × Nat
  | .text s => (.text s, [], [], k)
  | .elem t a cs =>
    let ra := processAttrs toks assets t a k
    let rc := dsaList toks assets ra.next cs
    (.elem t ra.attrs rc.out, ra.reqs ++ rc.reqs, ra.files ++ rc.files, rc.next)
/-- Archive the asset references of a node list, in document order. -/
def dsaList (toks : Nat → String) (assets : String → String) (k : Nat) :
    List Html → DsaOut
  | [] => ⟨[], [], [], k⟩
  | c :: cs =>
    let rn := dsaNode toks assets k c
    let rc := dsaList toks assets rn.2.2.2 cs
    ⟨rn.1 :: rc.out, rn.2.1 ++ rc.reqs, rn.2.2.1 ++ rc.files, rc.next⟩
end

/-- `download_static_assets(doc, ...)` over a whole document. -/
def download_static_assets (toks : Nat → String) (assets : String → String)
    (d : Doc) : DsaOut :=
  dsaList toks assets 0 d

mutual
/-- All asset-reference attribute values present in a tree. -/
def assetRefsNode : Html → List String
  | .text _ => []
  | .elem t a cs =>
    (a.filter (fun kv => isAssetAttr t kv.1)).map (fun kv => kv.2) ++ assetRefsList cs
def assetRefsList : List Html → List String
  | [] => []
  | c :: cs => assetRefsNode c ++ assetRefsList cs
end

/-- The archive artifact of one article: the sanitized `index.html` document
plus the saved asset files.  `create_predictable_zip` is deterministic in
the directory contents, so two artifacts are byte-identical exactly when
these contents coincide. -/
structure Artifact where
  index : Doc
  files : List (String × String)

/-- The archiving pipeline of `download_content_node` (chef.py lines
201–236): fetch the page, download/rewrite static assets, strip the fixed
selector list, and package the result. -/
def download_content_node_artifact (pages : String → Doc) (assets : String → String)
    (toks : Nat → String) (url : String) : Artifact :=
  ⟨sanitizeDoc (download_static_assets toks assets (pages url)).out,
    (download_static_assets toks assets (pages url)).files⟩

/-! ## The site-structure walker (chef.py lines 92–186)

Python exceptions are modelled with `Except`; the network is the oracle
`pages` mapping a URL to the parsed document `get_parsed_html_from_url`
returns for it. -/

/-- A Python exception raised during the crawl. -/
inductive PyError where
  | keyError (key : String)
  | attrError (msg : String)
  | indexError (msg : String)
deriving DecidableEq

/-- An observable side effect of the crawl. -/
inductive Event where
  | post (url : String) (fields : List (String × String))
  | sleep (secs : Nat)
  | getPage (url : String)
deriving DecidableEq

/-- A node of the produced channel tree (`ricecooker` `TopicNode` /
`HTML5AppNode`; the `language` field stores the language code). -/
inductive CNode where
  | topic (source_id title language description : String) (children : List CNode)
  | html5app (source_id title language : String)

/-- The language tag a node was created with. -/
def CNode.lang : CNode → String
  | .topic _ _ l _ _ => l
  | .html5app _ _ l => l

/-- The child nodes of a node. -/
def CNode.childList : CNode → List CNode
  | .topic _ _ _ _ cs => cs
  | .html5app _ _ _ => []

/-- The source identifier of a node. -/
def CNode.srcId : CNode → String
  | .topic s _ _ _ _ => s
  | .html5app s _ _ => s

/-- The title of a node. -/
def CNode.titleOf : CNode → String
  | .topic _ t _ _ _ => t
  | .html5app _ t _ => t

/-- The description of a node. -/
def CNode.descOf : CNode → String
  | .topic _ _ _ d _ => d
  | .html5app _ _ _ => ""

/-- A `le_utils` language object (the name `Language` itself is taken by
Mathlib). -/
structure MeetLanguage where
  code : String
  name : String
  native_name : String
deriving DecidableEq

/-- `form#mform1`. -/
def mform1Sel : Selector := ⟨[], ⟨some "form", some "mform1", [], []⟩, none⟩

/-- `form#mform1 input`. -/
def mform1InputSel : Selector :=
  ⟨[⟨some "form", some "mform1", [], []⟩], ⟨some "input", none, [], []⟩, none⟩

/-- A simple selector requiring a single class. -/
def onlyClass (c : String) : SimpleSel := ⟨none, none, [c], []⟩

/-- `.course-content .topics .section.main`. -/
def sectionSel : Selector :=
  ⟨[onlyClass "course-content", onlyClass "topics"],
    ⟨none, none, ["section", "main"], []⟩, none⟩

/-- `.section-title`. -/
def sectionTitleSel : Selector := ⟨[], onlyClass "section-title", none⟩

/-- `a`. -/
def aTagSel : Selector := ⟨[], ⟨some "a", none, [], []⟩, none⟩

/-- `.summarytext`. -/
def summarySel : Selector := ⟨[], onlyClass "summarytext", none⟩

/-- `.course-content .topics .content .activity.modtype_page`. -/
def activitySel : Selector :=
  ⟨[onlyClass "course-content", onlyClass "topics", onlyClass "content"],
    ⟨none, none, ["activity", "modtype_page"], []⟩, none⟩

/-- `.instancename`. -/
def instanceNameSel : Selector := ⟨[], onlyClass "instancename", none⟩

/-- `.coursename`. -/
def coursenameSel : Selector := ⟨[], onlyClass "coursename", none⟩

/-- `.category.essentialcats a`. -/
def catLinkSel : Selector :=
  ⟨[⟨none, none, ["category", "essentialcats"], []⟩], ⟨some "a", none, [], []⟩, none⟩

/-- The enrollment endpoint compared against the form action (line 136). -/
def enrolIndexUrl : String := "http://migranthealth.eu/etraining/enrol/index.php"

/-- The root listing page (line 93). -/
def etrainingRootUrl : String := "http://migranthealth.eu/etraining/"

/-- Python `dict` insertion: overwrite an existing key in place, else append. -/
def dictInsert (k v : String) (d : List (String × String)) : List (String × String) :=
  if d.any (fun p => p.1 = k) then d.map (fun p => if p.1 = k then (k, v) else p)
  else d ++ [(k, v)]

/-- The `post_values` loop (chef.py lines 138–141): every selected input
that carries a `value` attribute contributes `element['name']` ↦
`element['value']`; an input with a value but no name raises `KeyError`. -/
def postValuesGo (acc : List (String × String)) :
    List Html → Except PyError (List (String × String))
  | [] => .ok acc
  | el :: rest =>
    match getAttr "value" el with
    | none => postValuesGo acc rest
    | some v =>
      match getAttr "name" el with
      | none => .error (.keyError "name")
      | some n => postValuesGo (dictInsert n v acc) rest

/-- The enrollment step inlined in `fetch_module` (chef.py lines 134–144),
called `ensure_enrolled` by the spec (§4.2): if the page holds
`form#mform1` whose `action` is the enrollment endpoint, POST the valued
form fields, sleep one second, and re-fetch the module page; otherwise keep
the original document.  Returns the document to continue with and the side
effects performed. -/
def ensure_enrolled (pages : String → Doc) (doc : Doc) (url : String) :
    Except PyError (Doc × List Event) :=
  match docSelectOne mform1Sel doc with
  | none => .ok (doc, [])
  | some form =>
    match getAttr "action" form with
    | none => .error (.keyError "action")
    | some act =>
      if act = enrolIndexUrl then
        match postValuesGo [] (docSelect mform1InputSel doc) with
        | .error e => .error e
        | .ok pv => .ok (pages url, [.post act pv, .sleep 1, .getPage url])
      else .ok (doc, [])

/-- `fetch_article` / the node built by `download_content_node` (chef.py
lines 181–186 and 237–243): an HTML5 app node with the article URL as
source id, the truncated title, and language `"en"`.  The archive file it
carries is modelled by `download_content_node_artifact`. -/
def fetch_article (url title : String) : CNode :=
  .html5app url (truncate_metadata title) "en"

/-- One iteration of the article loop of `fetch_unit` (chef.py lines
172–176): the title is the first child of the `.instancename` element
(which must be a string, or Python raises), the link is the first `a`
descendant's `href`. -/
def articleOf (act : Html) : Except PyError CNode :=
  match selectInsideOne instanceNameSel act with
  | none => .error (.attrError "NoneType contents")
  | some inst =>
    match inst with
    | .text _ => .error (.attrError "unreachable")
    | .elem _ _ [] => .error (.indexError "contents")
    | .elem _ _ (.elem _ _ _ :: _) => .error (.attrError "Tag strip")
    | .elem _ _ (.text s :: _) =>
      match selectInsideOne aTagSel act with
      | none => .error (.attrError "NoneType href")
      | some a =>
        match getAttr "href" a with
        | none => .error (.keyError "href")
        | some article_url => .ok (fetch_article article_url (pyStrip s))

/-- The article loop of `fetch_unit`. -/
def articlesGo : List Html → Except PyError (List CNode)
  | [] => .ok []
  | act :: rest =>
    match articleOf act with
    | .error e => .error e
    | .ok n =>
      match articlesGo rest with
      | .error e => .error e
      | .ok ns => .ok (n :: ns)

/-- `fetch_unit` (chef.py lines 159–178). -/
def fetch_unit (pages : String → Doc) (url title description : String) :
    Except PyError CNode :=
  match articlesGo (docSelect activitySel (pages url)) with
  | .error e => .error e
  | .ok arts => .ok (.topic url title "en" description arts)

/-- One iteration of the section loop of `fetch_module` (chef.py lines
146–152): `none` models `continue` on a missing `.section-title`; a titled
section yields its stripped title, its title link and its stripped
`.summarytext`. -/
def sectionInfoOpt (s : Html) : Except PyError (Option (String × String × String)) :=
  match selectInsideOne sectionTitleSel s with
  | none => .ok none
  | some st =>
    match selectInsideOne aTagSel st with
    | none => .error (.attrError "NoneType href")
    | some a =>
      match getAttr "href" a with
      | none => .error (.keyError "href")
      | some unit_url =>
        match selectInsideOne summarySel s with
        | none => .error (.attrError "NoneType text")
        | some sm => .ok (some (pyStrip (textOf st), unit_url, pyStrip (textOf sm)))

/-- The section loop of `fetch_module` (chef.py lines 146–154). -/
def unitsGo (pages : String → Doc) : List Html → Except PyError (List CNode)
  | [] => .ok []
  | s :: rest =>
    match sectionInfoOpt s with
    | .error e => .error e
    | .ok none => unitsGo pages rest
    | .ok (some (t, u, d)) =>
      match fetch_unit pages u t d with
      | .error e => .error e
      | .ok n =>
        match unitsGo pages rest with
        | .error e => .error e
        | .ok ns => .ok (n :: ns)

/-- `fetch_module` (chef.py lines 121–156): module topic node with the
module URL as source id and language `"en"`, children built from the
post-enrollment document's titled sections. -/
def fetch_module (pages : String → Doc) (url title : String) : Except PyError CNode :=
  match ensure_enrolled pages (pages url) url with
  | .error e => .error e
  | .ok (doc2, _) =>
    match unitsGo pages (docSelect sectionSel doc2) with
    | .error e => .error e
    | .ok us => .ok (.topic url title "en" "" us)

/-- The course loop of `fetch_language` (chef.py lines 113–116): the course
title is `course.text` (unstripped), the link the first `a` descendant. -/
def coursesGo (pages : String → Doc) : List Html → Except PyError (List CNode)
  | [] => .ok []
  | c :: rest =>
    match selectInsideOne aTagSel c with
    | none => .error (.attrError "NoneType href")
    | some a =>
      match getAttr "href" a with
      | none => .error (.keyError "href")
      | some url =>
        match fetch_module pages url (textOf c) with
        | .error e => .error e
        | .ok n =>
          match coursesGo pages rest with
          | .error e => .error e
          | .ok ns => .ok (n :: ns)

/-- `fetch_language` (chef.py lines 102–118): the language topic node keeps
the language's code and native name; its children are the course modules. -/
def fetch_language (pages : String → Doc) (url : String) (language : MeetLanguage) :
    Except PyError CNode :=
  match coursesGo pages (docSelect coursenameSel (pages url)) with
  | .error e => .error e
  | .ok ms => .ok (.topic language.code language.native_name language.code "" ms)

/-- Drop the first `n` characters of a string (Python slicing `s[n:]`). -/
def pyDrop (s : String) (n : Nat) : String := String.mk (s.toList.drop n)

/-- The language-link loop of `fetch_all_languages` (chef.py lines 94–99):
each link's stripped label loses its first five characters
(`[len('MEET '):]`) and the remainder is resolved with
`languages.getlang_by_name` (the `getlang` oracle, external `le_utils`
code).  When the lookup returns `None`, `fetch_language(url, None)` raises
`AttributeError` on `language.name` before building any node. -/
def languagesGo (getlang : String → Option MeetLanguage) (pages : String → Doc) :
    List Html → Except PyError (List CNode)
  | [] => .ok []
  | link :: rest =>
    match getAttr "href" link with
    | none => .error (.keyError "href")
    | some url =>
      match getlang (pyDrop (pyStrip (textOf link)) 5) with
      | none => .error (.attrError "NoneType name")
      | some lang =>
        match fetch_language pages url lang with
        | .error e => .error e
        | .ok n =>
          match languagesGo getlang pages rest with
          | .error e => .error e
          | .ok ns => .ok (n :: ns)

/-- `fetch_all_languages` (chef.py lines 92–99), returning the language
nodes added to the channel. -/
def fetch_all_languages (getlang : String → Option MeetLanguage)
    (pages : String → Doc) : Except PyError (List CNode) :=
  languagesGo getlang pages (docSelect catLinkSel (pages etrainingRootUrl))

/-! ## Claim-side definitions

Definitions phrased from the spec's vocabulary, used to state the claims
against the embedded code. -/

/-- Whether a crawl step succeeded (no Python exception). -/
def exceptOk {α : Type} : Except PyError α → Bool
  | .ok _ => true
  | .error _ => false

/-- Whether a module page contains an enrollment form whose action is the
known enrollment endpoint. -/
def enrolling (doc : Doc) : Bool :=
  match docSelectOne mform1Sel doc with
  | none => false
  | some form => getAttr "action" form = some enrolIndexUrl

/-- The selected enrollment-form inputs that carry a `value` attribute. -/
def valuedInputs (doc : Doc) : List Html :=
  (docSelect mform1InputSel doc).filter (fun el => (getAttr "value" el).isSome)

/-- The `(name, value)` pairs of the value-carrying inputs of a list, in
document order. -/
def fieldsOf (l : List Html) : List (String × String) :=
  (l.filter (fun el => (getAttr "value" el).isSome)).map
    (fun el => ((getAttr "name" el).getD "", (getAttr "value" el).getD ""))

/-- The fields the enrollment POST should carry according to the spec: all
form inputs with a `value` attribute. -/
def enrollFields (doc : Doc) : List (String × String) :=
  fieldsOf (docSelect mform1InputSel doc)

/-- Whether a present enrollment form carries an `action` attribute (a
real form always does; without one, `form['action']` on line 136 raises). -/
def formActionOk (doc : Doc) : Bool :=
  match docSelectOne mform1Sel doc with
  | none => true
  | some f => (getAttr "action" f).isSome

/-- The section blocks of a module page that have a title element. -/
def titledSections (doc : Doc) : List Html :=
  (docSelect sectionSel doc).filter (fun s => (selectInsideOne sectionTitleSel s).isSome)

/-- Whether a section-title element contains a link carrying `href`. -/
def titleHasLink (st : Html) : Bool :=
  match selectInsideOne aTagSel st with
  | none => false
  | some a => (getAttr "href" a).isSome

/-- Well-formedness of one section block: if it is titled, its title holds
a link with an `href` and the section holds a `.summarytext` element (the
site's module pages always do; a violation would raise, §7 of the spec). -/
def sectionWF (s : Html) : Bool :=
  match selectInsideOne sectionTitleSel s with
  | none => true
  | some st => titleHasLink st && (selectInsideOne summarySel s).isSome

/-- The stripped title text of a titled section. -/
def secTitleText (s : Html) : String :=
  pyStrip (textOf ((selectInsideOne sectionTitleSel s).getD (.text "")))

/-- The link (`href` of the first `a` inside the title) of a titled section. -/
def secLink (s : Html) : String :=
  (getAttr "href"
    ((selectInsideOne aTagSel
      ((selectInsideOne sectionTitleSel s).getD (.text ""))).getD (.text ""))).getD ""

/-- The stripped `.summarytext` description of a section. -/
def secDesc (s : Html) : String :=
  pyStrip (textOf ((selectInsideOne summarySel s).getD (.text "")))

/-! ## Concrete fixtures for witnesses and counterexamples -/

/-- The first exclusion selector, `header`. -/
def headerSel : Selector := ⟨[], ⟨some "header", none, [], []⟩, none⟩

/-- The fourteenth exclusion selector, `.generalbox table tr:nth-of-type(2)`. -/
def genboxSel : Selector :=
  ⟨[⟨none, none, ["generalbox"], []⟩, ⟨some "table", none, [], []⟩],
    ⟨some "tr", none, [], []⟩, some 2⟩

/-- An article body holding a general content box whose table has three
rows. -/
def exGeneralboxDoc : Doc :=
  [.elem "div" [("class", "generalbox")]
    [.elem "table" []
      [.elem "tr" [] [.text "label row"],
       .elem "tr" [] [.text "second row"],
       .elem "tr" [] [.text "third row"]]]]

/-- A small article body with a page header. -/
def exHeaderDoc : Doc :=
  [.elem "header" [] [.text "site chrome"], .elem "div" [] [.text "content"]]

/-- A module page carrying the enrollment form. -/
def exFormDoc : Doc :=
  [.elem "form" [("id", "mform1"),
      ("action", "http://migranthealth.eu/etraining/enrol/index.php")]
    [.elem "input" [("name", "id"), ("value", "3")] [],
     .elem "input" [("name", "submitbutton"), ("value", "Enrol me")] [],
     .elem "input" [("type", "text")] []]]

/-- The module page as served after enrollment. -/
def exFreshDoc : Doc := [.elem "div" [("class", "fresh")] []]

/-- A module page with two sections, one of them untitled, whose unit page
is empty. -/
def exModPages : String → Doc := fun u =>
  if u = "http://migranthealth.eu/etraining/course/view.php?id=3" then
    [.elem "div" [("class", "course-content")]
      [.elem "ul" [("class", "topics")]
        [.elem "li" [("class", "section main")]
          [.elem "h3" [("class", "section-title")]
            [.elem "a" [("href", "unit1")] [.text "Unit 1"]],
           .elem "div" [("class", "summarytext")] [.text " About unit 1 "]],
         .elem "li" [("class", "section main")]
          [.elem "div" [("class", "summarytext")] [.text "no title"]]]]]
  else []

/-- The module URL served by `exModPages`. -/
def exModUrl : String := "http://migranthealth.eu/etraining/course/view.php?id=3"

/-- A language page listing one course, reusing `exModPages` for the
module and unit pages. -/
def exLangPages : String → Doc := fun u =>
  if u = "http://migranthealth.eu/etraining/course/index.php?categoryid=2" then
    [.elem "h3" [("class", "coursename")]
      [.elem "a" [("href", "http://migranthealth.eu/etraining/course/view.php?id=3")]
        [.text "Module 1: Planning a CHE service"]]]
  else exModPages u

/-- A root listing page with one language category link, reusing
`exLangPages` below it. -/
def exRootPages : String → Doc := fun u =>
  if u = etrainingRootUrl then
    [.elem "div" [("class", "category essentialcats")]
      [.elem "a" [("href", "http://migranthealth.eu/etraining/course/index.php?categoryid=2")]
        [.text " MEET Spanish "]]]
  else exLangPages u

/-- A language-name lookup oracle knowing only Spanish. -/
def exGetlang : String → Option MeetLanguage := fun n =>
  if n = "Spanish" then some ⟨"es", "Spanish", "Español"⟩ else none

/-- An article page referencing one ordinary asset and one denylisted
asset. -/
def exAssetDoc : Doc :=
  [.elem "img" [("src", "http://migranthealth.eu/theme/pic.PNG")] [],
   .elem "script" [("src", "http://migranthealth.eu/lib/analytics.js")] []]

/-- A page oracle serving `exAssetDoc` for every article URL. -/
def exAssetPages : String → Doc := fun _ => exAssetDoc

/-- The language-page URL served by `exLangPages`. -/
def exLangUrl : String := "http://migranthealth.eu/etraining/course/index.php?categoryid=2"

/-- The unit node the fixture crawl produces. -/
def exUnitNode : CNode := .topic "unit1" "Unit 1" "en" "About unit 1" []

/-- The module node the fixture crawl produces. -/
def exModuleNode : CNode :=
  .topic exModUrl "Module 1: Planning a CHE service" "en" "" [exUnitNode]

/-- The language node the fixture crawl produces. -/
def exLangNode : CNode := .topic "es" "Español" "es" "" [exModuleNode]

/-! ## C5: title truncation -/

/-- C5: `truncate_metadata` returns strings of length at most 190
unchanged, and cuts longer strings to their first 190 characters with
`" ..."` appended, so the result has length exactly 194. -/
theorem truncate_metadata_spec (s : String) :
    (s.length ≤ 190 → truncate_metadata s = s) ∧
    (s.length > 190 →
      truncate_metadata s = String.mk (s.toList.take 190) ++ " ..." ∧
      (truncate_metadata s).length = 194) := by
  constructor
  · intro h
    rw [truncate_metadata, if_neg (by omega)]
  · intro h
    rw [truncate_metadata, if_pos h]
    refine ⟨rfl, ?_⟩
    rw [String.length_append]
    have h1 : (String.mk (s.toList.take 190)).length = (s.toList.take 190).length := rfl
    have h2 : s.toList.length = s.length := rfl
    have h3 : (" ..." : String).length = 4 := rfl
    rw [h1, List.length_take, h3]
    omega

/-- Witness for C5 at a 2-character and a 191-character input. -/
theorem truncate_metadata_spec_witness :
    truncate_metadata "ab" = "ab" ∧
    (truncate_metadata (String.mk (List.replicate 191 'a'))).length = 194 :=
  ⟨(truncate_metadata_spec "ab").1 (by decide),
   ((truncate_metadata_spec (String.mk (List.replicate 191 'a'))).2 (by decide)).2⟩

/-! ## C3: retry loop -/

/-- C3 (code bug): when all five GET attempts fail with a connection
error, `make_request` performs sleeps of 1, 2, 3, 4 and 5 seconds and then
evaluates `Dummy404ResponseObject` (chef.py line 275) — a name that is
neither defined nor imported in the module — raising `NameError` instead
of returning the sentinel not-found response the spec promises; when an
attempt succeeds after two failures, the response is returned after
sleeping 1 and 2 seconds. -/
theorem make_request_retry_behavior :
    make_request (fun _ => NetResult.connError) =
      (.nameErrorDummy404, [1, 2, 3, 4, 5]) ∧
    make_request (fun i => if i < 2 then NetResult.readTimeout else .ok 200 "page") =
      (.resp 200 "page", [1, 2]) := ⟨rfl, rfl⟩

/-! ## C6: filename derivation -/

/-- C6 (counterexample): for `http://h/all?x=1` the URL *path* ends in the
literal segment `all`, yet `derive_filename` tests `url.split('/')[-1]` of
the whole URL, which is `all?x=1`, so it does not return `all.css`. -/
theorem derive_filename_counterexample :
    afterLastSlash (urlPath "http://h/all?x=1") = "all".toList ∧
    derive_filename "0f1e" "http://h/all?x=1" = "0f1e.all" ∧
    derive_filename "0f1e" "http://h/all?x=1" ≠ "all.css" := by decide

/-- C6 (amended): `derive_filename` returns `all.css` exactly when the
last `/`-separated segment of the whole URL string (query and fragment
included) is literally `all`; otherwise it returns the fresh token joined
with `.` to the lower-cased, percent-escaped basename of the parsed URL
path.  With a fixed token the result is a function of the URL alone. -/
theorem derive_filename_spec (tok url : String) :
    (urlLastSegment url = "all".toList → derive_filename tok url = "all.css") ∧
    (urlLastSegment url ≠ "all".toList →
      derive_filename tok url =
        pyLower (tok ++ "." ++
          String.mk ((afterLastSlash (urlPath url)).map
            (fun c => if c = '%' then '_' else c)))) := by
  constructor
  · intro h
    rw [derive_filename, if_pos h]
  · intro h
    rw [derive_filename, if_neg h]

/-- Witness for C6 on the `all` stylesheet URL and an ordinary asset URL. -/
theorem derive_filename_spec_witness :
    derive_filename "0f1e" "http://h/theme/styles.php/1/all" = "all.css" ∧
    derive_filename "0F1E" "http://h/x/Pic%201.PNG" = "0f1e.pic_201.png" := by
  refine ⟨(derive_filename_spec "0f1e" _).1 (by decide), ?_⟩
  rw [(derive_filename_spec "0F1E" _).2 (by decide)]
  decide

/-! ## C1: the fourteen exclusion selectors -/

/-- `nodeMatches` of a selector without `nth-of-type` ignores the sibling
prefix and the children of the node. -/
theorem nodeMatches_stable (sel : Selector) (h : sel.nth = none) (anc : List Frame)
    (prev prev' : List Html) (t : String) (a : List (String × String))
    (cs cs' : List Html) :
    nodeMatches sel anc prev (.elem t a cs) = nodeMatches sel anc prev' (.elem t a cs') := by
  simp [nodeMatches, nthOk, h]

mutual
/-- Removing the matches of an `nth`-free selector leaves an unmatched node
with no matching descendants. -/
theorem rem_clean_node (sel : Selector) (h : sel.nth = none) :
    ∀ (c : Html) (anc : List Frame) (prev₁ prev₂ : List Html),
      nodeMatches sel anc prev₂ c = false →
      anyMatchNode sel anc prev₁ (removeNode sel anc c) = false
  | .text s, _, _, _, _ => by simp [removeNode, anyMatchNode]
  | .elem t a cs, anc, prev₁, prev₂, hm => by
    rw [removeNode, anyMatchNode]
    rw [nodeMatches_stable sel h anc prev₁ prev₂ t a _ cs, hm]
    rw [rem_clean_list sel h cs (anc ++ [(t, a)]) [] []]
    rfl
/-- Removing the matches of an `nth`-free selector from a node list leaves
no matching element. -/
theorem rem_clean_list (sel : Selector) (h : sel.nth = none) :
    ∀ (cs : List Html) (anc : List Frame) (prev₁ prev₂ : List Html),
      anyMatchList sel anc prev₁ (removeList sel anc prev₂ cs) = false
  | [], _, _, _ => by simp [removeList, anyMatchList]
  | c :: cs, anc, prev₁, prev₂ => by
    rw [removeList]
    by_cases hc : nodeMatches sel anc prev₂ c = true
    · rw [if_pos hc]
      exact rem_clean_list sel h cs anc prev₁ (prev₂ ++ [c])
    · have hc' : nodeMatches sel anc prev₂ c = false := by
        cases hnm : nodeMatches sel anc prev₂ c
        · rfl
        · exact absurd hnm hc
      rw [if_neg hc, anyMatchList]
      rw [rem_clean_node sel h c anc prev₁ prev₂ hc']
      rw [rem_clean_list sel h cs anc _ (prev₂ ++ [c])]
      rfl
end

mutual
/-- Removal (by any selector) preserves the absence of matches of an
`nth`-free selector, node form. -/
theorem rem_preserve_node (sel sel' : Selector) (h : sel.nth = none) :
    ∀ (c : Html) (anc : List Frame) (prev₁ prev₁' : List Html),
      anyMatchNode sel anc prev₁ c = false →
      anyMatchNode sel anc prev₁' (removeNode sel' anc c) = false
  | .text s, _, _, _, _ => by simp [removeNode, anyMatchNode]
  | .elem t a cs, anc, prev₁, prev₁', hm => by
    rw [anyMatchNode, Bool.or_eq_false_iff] at hm
    rw [removeNode, anyMatchNode, Bool.or_eq_false_iff]
    constructor
    · rw [nodeMatches_stable sel h anc prev₁' prev₁ t a _ cs]
      exact hm.1
    · exact rem_preserve_list sel sel' h cs (anc ++ [(t, a)]) [] [] [] hm.2
/-- Removal (by any selector) preserves the absence of matches of an
`nth`-free selector, list form. -/
theorem rem_preserve_list (sel sel' : Selector) (h : sel.nth = none) :
    ∀ (cs : List Html) (anc : List Frame) (prev₁ prev₁' prev₂ : List Html),
      anyMatchList sel anc prev₁ cs = false →
      anyMatchList sel anc prev₁' (removeList sel' anc prev₂ cs) = false
  | [], _, _, _, _, _ => by simp [removeList, anyMatchList]
  | c :: cs, anc, prev₁, prev₁', prev₂, hm => by
    rw [anyMatchList, Bool.or_eq_false_iff] at hm
    rw [removeList]
    by_cases hc : nodeMatches sel' anc prev₂ c = true
    · rw [if_pos hc]
      exact rem_preserve_list sel sel' h cs anc (prev₁ ++ [c]) prev₁' (prev₂ ++ [c]) hm.2
    · rw [if_neg hc, anyMatchList, Bool.or_eq_false_iff]
      exact ⟨rem_preserve_node sel sel' h c anc prev₁ prev₁' hm.1,
        rem_preserve_list sel sel' h cs anc (prev₁ ++ [c]) _ (prev₂ ++ [c]) hm.2⟩
end

/-- Emptiness of an `nth`-free selector's matches is preserved by any
following removal passes. -/
theorem foldl_remove_preserve (sel : Selector) (h : sel.nth = none) :
    ∀ (sels : List Selector) (d : Doc),
      anyMatchList sel [] [] d = false →
      anyMatchList sel [] [] (sels.foldl (fun d s => removeList s [] [] d) d) = false
  | [], _, hd => hd
  | s :: sels, d, hd => by
    rw [List.foldl_cons]
    exact foldl_remove_preserve sel h sels _ (rem_preserve_list sel s h d [] [] [] [] hd)

/-- Running the removal loop clears every `nth`-free selector it contains. -/
theorem mem_foldl_clean (sel : Selector) (h : sel.nth = none) :
    ∀ (sels : List Selector) (d : Doc), sel ∈ sels →
      anyMatchList sel [] [] (sels.foldl (fun d s => removeList s [] [] d) d) = false
  | [], _, hmem => absurd hmem (List.not_mem_nil _)
  | s :: sels, d, hmem => by
    rw [List.foldl_cons]
    rcases List.mem_cons.mp hmem with rfl | hmem'
    · exact foldl_remove_preserve sel h sels _ (rem_clean_list sel h d [] [] [])
    · exact mem_foldl_clean sel h sels _ hmem'

/-- C1 (amended): after `download_content_node`'s removal loop, no element
of the written document matches any of the thirteen exclusion selectors
that carry no `nth-of-type` pseudo-class.  The fourteenth selector
(`.generalbox table tr:nth-of-type(2)`) removes exactly the rows that
matched when its pass ran, but removing a second row shifts the following
row into second position, so that selector can match again in the written
output (see the counterexample). -/
theorem sanitizeDoc_stable_selectors_clean (d : Doc) (sel : Selector)
    (hmem : sel ∈ nodes_to_remove) (hst : sel.nth = none) :
    anyMatchList sel [] [] (sanitizeDoc d) = false :=
  mem_foldl_clean sel hst nodes_to_remove d hmem

/-- Witness for C1 (amended): a page with a `header` element is cleaned of
it. -/
theorem sanitizeDoc_stable_selectors_clean_witness :
    headerSel ∈ nodes_to_remove ∧ headerSel.nth = none ∧
    anyMatchList headerSel [] [] (sanitizeDoc exHeaderDoc) = false :=
  ⟨by decide, rfl,
    sanitizeDoc_stable_selectors_clean exHeaderDoc headerSel (by decide) rfl⟩

/-- C1 (counterexample): in a general content box whose table has three
rows, the second row is removed, but afterwards the originally-third row
is the table's second `tr`, so the sanitized document still contains an
element matching the fourteenth exclusion selector. -/
theorem sanitizeDoc_counterexample :
    genboxSel ∈ nodes_to_remove ∧
    anyMatchList genboxSel [] [] (sanitizeDoc exGeneralboxDoc) = true := by decide

/-! ## C4: the enrollment step -/

/-- Inserting a fresh key into a Python dict appends it. -/
theorem dictInsert_fresh (k v : String) (d : List (String × String))
    (h : ∀ p ∈ d, p.1 ≠ k) : dictInsert k v d = d ++ [(k, v)] := by
  rw [dictInsert, if_neg]
  intro hc
  simp only [List.any_eq_true, decide_eq_true_eq] at hc
  obtain ⟨p, hp, hpk⟩ := hc
  exact h p hp hpk

/-- The `post_values` loop collects exactly the `(name, value)` pairs of
the value-carrying inputs when names are present and distinct. -/
theorem postValuesGo_spec :
    ∀ (l : List Html) (acc : List (String × String)),
      (∀ el ∈ l, (getAttr "value" el).isSome = true → (getAttr "name" el).isSome = true) →
      ((acc ++ fieldsOf l).map Prod.fst).Nodup →
      postValuesGo acc l = .ok (acc ++ fieldsOf l)
  | [], acc, _, _ => by simp [postValuesGo, fieldsOf]
  | el :: rest, acc, hn, hd => by
    rw [postValuesGo]
    cases hv : getAttr "value" el with
    | none =>
      have hfe : fieldsOf (el :: rest) = fieldsOf rest := by
        simp [fieldsOf, List.filter_cons, hv]
      rw [hfe] at hd ⊢
      exact postValuesGo_spec rest acc
        (fun e he hve => hn e (List.mem_cons_of_mem _ he) hve) hd
    | some v =>
      have hnm := hn el (List.mem_cons_self _ _) (by rw [hv]; rfl)
      cases hname : getAttr "name" el with
      | none => rw [hname] at hnm; exact absurd hnm (by simp)
      | some n =>
        have hfe : fieldsOf (el :: rest) = (n, v) :: fieldsOf rest := by
          simp [fieldsOf, List.filter_cons, hv, hname]
        rw [hfe] at hd ⊢
        show postValuesGo (dictInsert n v acc) rest =
          Except.ok (acc ++ (n, v) :: fieldsOf rest)
        have hd' : ((acc ++ [(n, v)] ++ fieldsOf rest).map Prod.fst).Nodup := by
          rw [List.append_assoc, List.singleton_append]
          exact hd
        have hfresh : ∀ p ∈ acc, p.1 ≠ n := by
          intro p hp hpn
          rw [List.map_append, List.nodup_append] at hd
          have h1 : n ∈ List.map Prod.fst acc := by
            rw [← hpn]
            exact List.mem_map_of_mem Prod.fst hp
          have h2 : n ∈ List.map Prod.fst ((n, v) :: fieldsOf rest) := by simp
          exact hd.2.2 h1 h2
        rw [dictInsert_fresh n v acc hfresh]
        have := postValuesGo_spec rest (acc ++ [(n, v)])
          (fun e he hve => hn e (List.mem_cons_of_mem _ he) hve) hd'
        rw [this, List.append_assoc, List.singleton_append]

/-- C4: on a well-formed module page, the enrollment step issues exactly
one POST to the enrollment endpoint whose fields are exactly the
`(name, value)` pairs of the form's value-carrying inputs, sleeps one
second, re-fetches the module URL exactly once and continues with the
fresh document; when no enrollment form targeting the endpoint is present,
no POST or re-fetch happens and the original document is used unchanged. -/
theorem ensure_enrolled_spec (pages : String → Doc) (doc : Doc) (url : String)
    (hAct : formActionOk doc = true)
    (hNamed : ∀ el ∈ docSelect mform1InputSel doc,
      (getAttr "value" el).isSome = true → (getAttr "name" el).isSome = true)
    (hNodup : ((enrollFields doc).map Prod.fst).Nodup) :
    (enrolling doc = true →
      ensure_enrolled pages doc url =
        .ok (pages url,
          [.post enrolIndexUrl (enrollFields doc), .sleep 1, .getPage url])) ∧
    (enrolling doc = false → ensure_enrolled pages doc url = .ok (doc, [])) := by
  unfold ensure_enrolled enrolling
  unfold formActionOk at hAct
  cases hsel : docSelectOne mform1Sel doc with
  | none => exact ⟨fun hc => absurd hc (by simp), fun _ => rfl⟩
  | some form =>
    rw [hsel] at hAct
    simp only at hAct ⊢
    obtain ⟨act, hact⟩ := Option.isSome_iff_exists.mp hAct
    rw [hact]
    have hpv := postValuesGo_spec (docSelect mform1InputSel doc) [] hNamed
      (by simpa [enrollFields] using hNodup)
    rw [List.nil_append] at hpv
    by_cases he : act = enrolIndexUrl
    · subst he
      refine ⟨fun _ => ?_, fun hc => absurd hc (by simp)⟩
      rw [hpv]
      rfl
    · refine ⟨fun hc => ?_, fun _ => ?_⟩
      · rw [decide_eq_true_iff] at hc
        exact absurd (Option.some_injective _ hc) he
      · show (if act = enrolIndexUrl then _ else _) = _
        rw [if_neg he]

/-- Witness for C4: the enrollment form of `exFormDoc` triggers one POST
with both valued fields, one sleep, one re-fetch. -/
theorem ensure_enrolled_spec_witness :
    enrolling exFormDoc = true ∧
    ensure_enrolled (fun _ => exFreshDoc) exFormDoc "m" =
      .ok (exFreshDoc,
        [.post enrolIndexUrl [("id", "3"), ("submitbutton", "Enrol me")],
         .sleep 1, .getPage "m"]) := by
  refine ⟨by decide, ?_⟩
  have h := (ensure_enrolled_spec (fun _ => exFreshDoc) exFormDoc "m"
    (by decide) (by decide) (by decide)).1 (by decide)
  rw [h]
  rfl

/-! ## C7: one unit node per titled section -/

/-- A successful `fetch_unit` always returns a topic node carrying exactly
the URL, title, `"en"` and description it was called with. -/
theorem fetch_unit_ok_shape (pages : String → Doc) (url title description : String)
    (n : CNode) (h : fetch_unit pages url title description = .ok n) :
    ∃ arts, n = .topic url title "en" description arts := by
  cases ha : articlesGo (docSelect activitySel (pages url)) with
  | error e =>
    simp only [fetch_unit, ha] at h
    exact absurd h (by simp)
  | ok arts =>
    simp only [fetch_unit, ha, Except.ok.injEq] at h
    exact ⟨arts, h.symm⟩

/-- An untitled section makes the loop continue. -/
theorem sectionInfoOpt_untitled (s : Html)
    (ht : selectInsideOne sectionTitleSel s = none) :
    sectionInfoOpt s = .ok none := by
  simp only [sectionInfoOpt, ht]

/-- A well-formed titled section yields its stripped title, its title link
and its stripped summary. -/
theorem sectionInfoOpt_titled (s : Html) (hwf : sectionWF s = true)
    (ht : (selectInsideOne sectionTitleSel s).isSome = true) :
    sectionInfoOpt s = .ok (some (secTitleText s, secLink s, secDesc s)) := by
  unfold sectionWF at hwf
  cases hst : selectInsideOne sectionTitleSel s with
  | none => rw [hst] at ht; exact absurd ht (by simp)
  | some st =>
    rw [hst] at hwf
    rw [Bool.and_eq_true] at hwf
    obtain ⟨h1, h2⟩ := hwf
    unfold titleHasLink at h1
    cases ha : selectInsideOne aTagSel st with
    | none => rw [ha] at h1; exact absurd h1 (by simp)
    | some a =>
      rw [ha] at h1
      obtain ⟨u, hu⟩ := Option.isSome_iff_exists.mp h1
      cases hsm : selectInsideOne summarySel s with
      | none => rw [hsm] at h2; exact absurd h2 (by simp)
      | some sm =>
        simp only [sectionInfoOpt, hst, ha, hu, hsm, Except.ok.injEq, Option.some.injEq]
        simp [secTitleText, secLink, secDesc, hst, ha, hu, hsm]

/-- The section loop yields exactly one unit node per titled section, in
document order, each carrying that section's title, link and description. -/
theorem unitsGo_spec (pages : String → Doc) :
    ∀ l : List Html,
      (∀ s ∈ l, sectionWF s = true) →
      (∀ s ∈ l, (selectInsideOne sectionTitleSel s).isSome = true →
        exceptOk (fetch_unit pages (secLink s) (secTitleText s) (secDesc s)) = true) →
      ∃ us, unitsGo pages l = .ok us ∧
        List.Forall₂ (fun s n => CNode.titleOf n = secTitleText s ∧
            CNode.srcId n = secLink s ∧ CNode.descOf n = secDesc s)
          (l.filter (fun s => (selectInsideOne sectionTitleSel s).isSome)) us
  | [], _, _ => ⟨[], rfl, by simp⟩
  | s :: rest, hwf, hu => by
    obtain ⟨us, hus, hall⟩ := unitsGo_spec pages rest
      (fun x hx => hwf x (List.mem_cons_of_mem _ hx))
      (fun x hx htx => hu x (List.mem_cons_of_mem _ hx) htx)
    cases hst : selectInsideOne sectionTitleSel s with
    | none =>
      refine ⟨us, ?_, ?_⟩
      · simp only [unitsGo, sectionInfoOpt_untitled s hst]
        exact hus
      · rw [List.filter_cons]
        simp only [hst, Option.isSome_none, Bool.false_eq_true, if_false]
        exact hall
    | some st =>
      have hts : (selectInsideOne sectionTitleSel s).isSome = true := by rw [hst]; rfl
      have hok := hu s (List.mem_cons_self _ _) hts
      cases hfu : fetch_unit pages (secLink s) (secTitleText s) (secDesc s) with
      | error e => rw [hfu] at hok; exact absurd hok (by simp [exceptOk])
      | ok n =>
        obtain ⟨arts, hn⟩ := fetch_unit_ok_shape pages _ _ _ n hfu
        refine ⟨n :: us, ?_, ?_⟩
        · simp only [unitsGo, sectionInfoOpt_titled s (hwf s (List.mem_cons_self _ _)) hts,
            hfu, hus]
        · rw [List.filter_cons, if_pos (by rw [hst]; exact rfl)]
          refine List.Forall₂.cons ?_ hall
          rw [hn]
          exact ⟨rfl, rfl, rfl⟩

/-- C7: given the post-enrollment module document, `fetch_module` returns
a module topic node with exactly one unit child per section block that has
a title element, in document order, each carrying the section's stripped
title, its link and its stripped description; untitled sections contribute
nothing and raise nothing. -/
theorem fetch_module_spec (pages : String → Doc) (url title : String) (doc2 : Doc)
    (evs : List Event)
    (henr : ensure_enrolled pages (pages url) url = .ok (doc2, evs))
    (hsec : ∀ s ∈ docSelect sectionSel doc2, sectionWF s = true)
    (hu : ∀ s ∈ docSelect sectionSel doc2,
      (selectInsideOne sectionTitleSel s).isSome = true →
      exceptOk (fetch_unit pages (secLink s) (secTitleText s) (secDesc s)) = true) :
    ∃ us, fetch_module pages url title = .ok (.topic url title "en" "" us) ∧
      List.Forall₂ (fun s n => CNode.titleOf n = secTitleText s ∧
          CNode.srcId n = secLink s ∧ CNode.descOf n = secDesc s)
        (titledSections doc2) us := by
  obtain ⟨us, hus, hall⟩ := unitsGo_spec pages (docSelect sectionSel doc2) hsec hu
  refine ⟨us, ?_, hall⟩
  simp only [fetch_module, henr, hus]

/-- Witness for C7: the two-section module page (one section untitled)
crawls without error and produces exactly one unit node. -/
theorem fetch_module_spec_witness :
    exceptOk (fetch_module exModPages exModUrl "Module 1") = true ∧
    (titledSections (exModPages exModUrl)).length = 1 := by
  obtain ⟨us, hfm, hall⟩ := fetch_module_spec exModPages exModUrl "Module 1"
    (exModPages exModUrl) [] rfl (by decide) (by decide)
  exact ⟨by rw [hfm]; rfl, by decide⟩

/-! ## C10: language tags in the tree -/

/-- Every article node is created with language `"en"`. -/
theorem articleOf_ok_lang (el : Html) (n : CNode) (h : articleOf el = .ok n) :
    CNode.lang n = "en" := by
  unfold articleOf at h
  split at h
  · exact absurd h (by simp)
  · split at h
    · exact absurd h (by simp)
    · exact absurd h (by simp)
    · exact absurd h (by simp)
    · split at h
      · exact absurd h (by simp)
      · split at h
        · exact absurd h (by simp)
        · simp only [Except.ok.injEq] at h
          rw [← h]
          rfl

/-- Every node produced by the article loop has language `"en"`. -/
theorem articlesGo_lang :
    ∀ (l : List Html) (ns : List CNode), articlesGo l = .ok ns →
      ∀ a ∈ ns, CNode.lang a = "en"
  | [], ns, h, a, ha => by
    simp only [articlesGo, Except.ok.injEq] at h
    rw [← h] at ha
    exact absurd ha (List.not_mem_nil _)
  | el :: rest, ns, h, a, ha => by
    cases hae : articleOf el with
    | error e => simp only [articlesGo, hae] at h; exact absurd h (by simp)
    | ok n =>
      cases har : articlesGo rest with
      | error e => simp only [articlesGo, hae, har] at h; exact absurd h (by simp)
      | ok ms =>
        simp only [articlesGo, hae, har, Except.ok.injEq] at h
        rw [← h] at ha
        rcases List.mem_cons.mp ha with rfl | hms
        · exact articleOf_ok_lang el a hae
        · exact articlesGo_lang rest ms har a hms

/-- Every node produced by the section loop is a unit topic node with
language `"en"`. -/
theorem unitsGo_lang (pages : String → Doc) :
    ∀ (l : List Html) (ns : List CNode), unitsGo pages l = .ok ns →
      ∀ u ∈ ns, CNode.lang u = "en"
  | [], ns, h, u, hu => by
    simp only [unitsGo, Except.ok.injEq] at h
    rw [← h] at hu
    exact absurd hu (List.not_mem_nil _)
  | s :: rest, ns, h, u, hu => by
    cases hsi : sectionInfoOpt s with
    | error e => simp only [unitsGo, hsi] at h; exact absurd h (by simp)
    | ok info =>
      cases info with
      | none =>
        simp only [unitsGo, hsi] at h
        exact unitsGo_lang pages rest ns h u hu
      | some tud =>
        obtain ⟨t, u', d⟩ := tud
        cases hfu : fetch_unit pages u' t d with
        | error e => simp only [unitsGo, hsi, hfu] at h; exact absurd h (by simp)
        | ok n =>
          cases hug : unitsGo pages rest with
          | error e => simp only [unitsGo, hsi, hfu, hug] at h; exact absurd h (by simp)
          | ok ms =>
            simp only [unitsGo, hsi, hfu, hug, Except.ok.injEq] at h
            rw [← h] at hu
            rcases List.mem_cons.mp hu with rfl | hms
            · obtain ⟨arts, hn⟩ := fetch_unit_ok_shape pages u' t d u hfu
              rw [hn]
              rfl
            · exact unitsGo_lang pages rest ms hug u hms

/-- A successful `fetch_module` produces a module topic node with language
`"en"` whose children all have language `"en"`. -/
theorem fetch_module_ok_lang (pages : String → Doc) (url title : String) (m : CNode)
    (h : fetch_module pages url title = .ok m) :
    CNode.lang m = "en" ∧ ∀ u ∈ CNode.childList m, CNode.lang u = "en" := by
  unfold fetch_module at h
  cases he : ensure_enrolled pages (pages url) url with
  | error e => rw [he] at h; exact absurd h (by simp)
  | ok p =>
    obtain ⟨doc2, evs⟩ := p
    rw [he] at h
    cases hg : unitsGo pages (docSelect sectionSel doc2) with
    | error e => simp only [hg] at h; exact absurd h (by simp)
    | ok us =>
      simp only [hg, Except.ok.injEq] at h
      rw [← h]
      exact ⟨rfl, unitsGo_lang pages _ us hg⟩

/-- Every node produced by the course loop is a module node with language
`"en"` and unit children with language `"en"`. -/
theorem coursesGo_lang (pages : String → Doc) :
    ∀ (l : List Html) (ms : List CNode), coursesGo pages l = .ok ms →
      ∀ m ∈ ms, CNode.lang m = "en" ∧ ∀ u ∈ CNode.childList m, CNode.lang u = "en"
  | [], ms, h, m, hm => by
    simp only [coursesGo, Except.ok.injEq] at h
    rw [← h] at hm
    exact absurd hm (List.not_mem_nil _)
  | c :: rest, ms, h, m, hm => by
    cases ha : selectInsideOne aTagSel c with
    | none => simp only [coursesGo, ha] at h; exact absurd h (by simp)
    | some a =>
      cases hh : getAttr "href" a with
      | none => simp only [coursesGo, ha, hh] at h; exact absurd h (by simp)
      | some url =>
        cases hfm : fetch_module pages url (textOf c) with
        | error e => simp only [coursesGo, ha, hh, hfm] at h; exact absurd h (by simp)
        | ok n =>
          cases hcg : coursesGo pages rest with
          | error e => simp only [coursesGo, ha, hh, hfm, hcg] at h; exact absurd h (by simp)
          | ok ns =>
            simp only [coursesGo, ha, hh, hfm, hcg, Except.ok.injEq] at h
            rw [← h] at hm
            rcases List.mem_cons.mp hm with rfl | hns
            · exact fetch_module_ok_lang pages url (textOf c) m hfm
            · exact coursesGo_lang pages rest ns hcg m hns

/-- C10: a successful `fetch_language` returns a language node carrying the
language's own code, while every module child and every unit grandchild is
created with its language tag fixed to `"en"` regardless of the branch's
language. -/
theorem fetch_language_lang_spec (pages : String → Doc) (url : String)
    (lang : MeetLanguage) (n : CNode)
    (h : fetch_language pages url lang = .ok n) :
    CNode.lang n = lang.code ∧
    ∀ m ∈ CNode.childList n, CNode.lang m = "en" ∧
      ∀ u ∈ CNode.childList m, CNode.lang u = "en" := by
  unfold fetch_language at h
  cases hcg : coursesGo pages (docSelect coursenameSel (pages url)) with
  | error e => rw [hcg] at h; exact absurd h (by simp)
  | ok ms =>
    rw [hcg] at h
    simp only [Except.ok.injEq] at h
    rw [← h]
    exact ⟨rfl, coursesGo_lang pages _ ms hcg⟩

/-- Witness for C10: the fixture language crawl returns a Spanish node
whose language tag is `"es"`. -/
theorem fetch_language_lang_spec_witness :
    fetch_language exLangPages exLangUrl ⟨"es", "Spanish", "Español"⟩ = .ok exLangNode ∧
    CNode.lang exLangNode = "es" :=
  ⟨rfl, (fetch_language_lang_spec exLangPages exLangUrl ⟨"es", "Spanish", "Español"⟩
    exLangNode rfl).1⟩

/-! ## C8: language resolution -/

/-- Two strings with equal character data are equal. -/
theorem str_eq_of_data (a b : String) (h : a.data = b.data) : a = b := by
  cases a
  cases b
  cases h
  rfl

/-- Dropping five characters from a string beginning with `"MEET "` strips
exactly that prefix. -/
theorem pyDrop_meet (s rest : String) (h : s = "MEET " ++ rest) :
    pyDrop s 5 = rest := by
  subst h
  apply str_eq_of_data
  have h1 : ("MEET " ++ rest).toList = "MEET ".toList ++ rest.toList := rfl
  show (("MEET " ++ rest).toList.drop 5) = rest.data
  rw [h1]
  have h2 : (5 : Nat) = "MEET ".toList.length := rfl
  rw [h2, List.drop_left]
  rfl

/-- A successful language loop resolved every link's name and produced one
node per link. -/
theorem languagesGo_spec (getlang : String → Option MeetLanguage)
    (pages : String → Doc) :
    ∀ (l : List Html) (ns : List CNode), languagesGo getlang pages l = .ok ns →
      ns.length = l.length ∧
      ∀ link ∈ l, (getlang (pyDrop (pyStrip (textOf link)) 5)).isSome = true
  | [], ns, h => by
    simp only [languagesGo, Except.ok.injEq] at h
    rw [← h]
    exact ⟨rfl, by intro link hl; exact absurd hl (List.not_mem_nil _)⟩
  | link :: rest, ns, h => by
    cases hh : getAttr "href" link with
    | none => simp only [languagesGo, hh] at h; exact absurd h (by simp)
    | some url =>
      cases hg : getlang (pyDrop (pyStrip (textOf link)) 5) with
      | none => simp only [languagesGo, hh, hg] at h; exact absurd h (by simp)
      | some lang =>
        cases hfl : fetch_language pages url lang with
        | error e => simp only [languagesGo, hh, hg, hfl] at h; exact absurd h (by simp)
        | ok n =>
          cases hlg : languagesGo getlang pages rest with
          | error e =>
            simp only [languagesGo, hh, hg, hfl, hlg] at h
            exact absurd h (by simp)
          | ok ms =>
            obtain ⟨hlen, hres⟩ := languagesGo_spec getlang pages rest ms hlg
            simp only [languagesGo, hh, hg, hfl, hlg, Except.ok.injEq] at h
            rw [← h]
            refine ⟨by simp [hlen], ?_⟩
            intro x hx
            rcases List.mem_cons.mp hx with rfl | hxr
            · rw [hg]
              rfl
            · exact hres x hxr

/-- C8: when every language category link's stripped label starts with
`"MEET "`, a successful crawl of the root page has resolved, for every
link, the label with that prefix stripped through the language-name
lookup, and produced exactly one language node per link; by contraposition
an unresolved name means the crawl raised on that entry instead of
skipping it. -/
theorem fetch_all_languages_spec (getlang : String → Option MeetLanguage)
    (pages : String → Doc) (ns : List CNode)
    (hpre : ∀ link ∈ docSelect catLinkSel (pages etrainingRootUrl),
      "MEET ".toList.isPrefixOf (pyStrip (textOf link)).toList = true)
    (h : fetch_all_languages getlang pages = .ok ns) :
    ns.length = (docSelect catLinkSel (pages etrainingRootUrl)).length ∧
    ∀ link ∈ docSelect catLinkSel (pages etrainingRootUrl),
      ∃ rest, pyStrip (textOf link) = "MEET " ++ rest ∧
        (getlang rest).isSome = true := by
  obtain ⟨hlen, hres⟩ := languagesGo_spec getlang pages _ ns h
  refine ⟨hlen, fun link hl => ?_⟩
  have hp := hpre link hl
  rw [List.isPrefixOf_iff_prefix] at hp
  obtain ⟨t, ht⟩ := hp
  have heq : pyStrip (textOf link) = "MEET " ++ String.mk t := by
    apply str_eq_of_data
    show (pyStrip (textOf link)).toList = "MEET ".toList ++ t
    rw [← ht]
  refine ⟨String.mk t, heq, ?_⟩
  have := hres link hl
  rwa [pyDrop_meet _ (String.mk t) heq] at this

/-- Witness for C8: the fixture root page crawls to one language node. -/
theorem fetch_all_languages_spec_witness :
    fetch_all_languages exGetlang exRootPages = .ok [exLangNode] ∧
    ([exLangNode] : List CNode).length =
      (docSelect catLinkSel (exRootPages etrainingRootUrl)).length :=
  ⟨rfl, (fetch_all_languages_spec exGetlang exRootPages [exLangNode]
    (by decide) rfl).1⟩

/-! ## C9: the asset denylist -/

/-- `Char.ofNat` of a valid codepoint round-trips through `toNat`. -/
theorem charOfNat_toNat (n : Nat) (hv : n.isValidChar) : (Char.ofNat n).toNat = n := by
  rw [Char.ofNat, dif_pos hv]
  rfl

/-- Lower-casing only produces `/` from `/`. -/
theorem toLower_slash {c : Char} (h : c.toLower = '/') : c = '/' := by
  rw [Char.toLower] at h
  by_cases hc : c.toNat ≥ 65 ∧ c.toNat ≤ 90
  · rw [if_pos hc] at h
    exfalso
    have h2 := congrArg Char.toNat h
    have hv : (c.toNat + 32).isValidChar := Or.inl (by omega)
    rw [charOfNat_toNat _ hv] at h2
    have h3 : ('/' : Char).toNat = 47 := rfl
    omega
  · rwa [if_neg hc] at h

/-- `pyLower` introduces no slash. -/
theorem pyLower_no_slash (s : String) (h : '/' ∉ s.toList) :
    '/' ∉ (pyLower s).toList := by
  intro hc
  have hc' : '/' ∈ s.toList.map Char.toLower := hc
  obtain ⟨c, hcm, hce⟩ := List.mem_map.mp hc'
  rw [toLower_slash hce] at hcm
  exact h hcm

/-- A basename contains no slash. -/
theorem afterLastSlash_no_slash (l : List Char) : '/' ∉ afterLastSlash l := by
  intro hc
  rw [afterLastSlash, List.mem_reverse] at hc
  have := List.mem_takeWhile_imp hc
  simp at this

/-- Derived local filenames contain no slash when the token does not. -/
theorem derive_filename_no_slash (tok url : String) (h : '/' ∉ tok.toList) :
    '/' ∉ (derive_filename tok url).toList := by
  unfold derive_filename
  split
  · decide
  · apply pyLower_no_slash
    intro hc
    have hc' : '/' ∈ tok.toList ++ ".".toList ++
        ((afterLastSlash (urlPath url)).map (fun c => if c = '%' then '_' else c)) := hc
    rw [List.append_assoc, List.mem_append, List.mem_append] at hc'
    rcases hc' with hm | hm | hm
    · exact h hm
    · simp at hm
    · obtain ⟨c, hcm, hce⟩ := List.mem_map.mp hm
      by_cases hp : c = '%'
      · rw [if_pos hp] at hce
        exact absurd hce (by decide)
      · rw [if_neg hp] at hce
        rw [hce] at hcm
        exact afterLastSlash_no_slash _ hcm

/-- No request issued by the attribute rewriter is denylisted. -/
theorem processAttrs_reqs_not_bl (toks : Nat → String) (assets : String → String)
    (tag : String) :
    ∀ (attrs : List (String × String)) (k : Nat),
      ∀ r ∈ (processAttrs toks assets tag attrs k).reqs, blacklisted r = false
  | [], k, r, hr => absurd hr (List.not_mem_nil _)
  | (key, v) :: rest, k, r, hr => by
    by_cases hA : isAssetAttr tag key = true
    · by_cases hB : blacklisted v = true
      · simp only [processAttrs, if_pos hA, if_pos hB] at hr
        exact processAttrs_reqs_not_bl toks assets tag rest k r hr
      · simp only [processAttrs, if_pos hA, if_neg hB] at hr
        rcases List.mem_cons.mp hr with rfl | hr'
        · cases hv : blacklisted r
          · rfl
          · exact absurd hv hB
        · exact processAttrs_reqs_not_bl toks assets tag rest _ r hr'
    · simp only [processAttrs, if_neg hA] at hr
      exact processAttrs_reqs_not_bl toks assets tag rest k r hr

/-- Every asset attribute surviving the rewriter holds a slash-free local
filename. -/
theorem processAttrs_out_no_slash (toks : Nat → String) (assets : String → String)
    (tag : String) (ht : ∀ i, '/' ∉ (toks i).toList) :
    ∀ (attrs : List (String × String)) (k : Nat)
      (kv : String × String), kv ∈ (processAttrs toks assets tag attrs k).attrs →
      isAssetAttr tag kv.1 = true → '/' ∉ kv.2.toList
  | [], k, kv, hkv, _ => absurd hkv (List.not_mem_nil _)
  | (key, v) :: rest, k, kv, hkv, hA' => by
    by_cases hA : isAssetAttr tag key = true
    · by_cases hB : blacklisted v = true
      · simp only [processAttrs, if_pos hA, if_pos hB] at hkv
        exact processAttrs_out_no_slash toks assets tag ht rest k kv hkv hA'
      · simp only [processAttrs, if_pos hA, if_neg hB] at hkv
        rcases List.mem_cons.mp hkv with rfl | hkv'
        · exact derive_filename_no_slash _ v (ht k)
        · exact processAttrs_out_no_slash toks assets tag ht rest _ kv hkv' hA'
    · simp only [processAttrs, if_neg hA] at hkv
      rcases List.mem_cons.mp hkv with rfl | hkv'
      · exact absurd hA' hA
      · exact processAttrs_out_no_slash toks assets tag ht rest k kv hkv' hA'

mutual
/-- No request issued while archiving a node is denylisted. -/
theorem dsaNode_reqs_not_bl (toks : Nat → String) (assets : String → String) :
    ∀ (c : Html) (k : Nat), ∀ r ∈ (dsaNode toks assets k c).2.1, blacklisted r = false
  | .text s, k, r, hr => absurd hr (List.not_mem_nil _)
  | .elem t a cs, k, r, hr => by
    simp only [dsaNode, List.mem_append] at hr
    rcases hr with hr | hr
    · exact processAttrs_reqs_not_bl toks assets t a k r hr
    · exact dsaList_reqs_not_bl toks assets cs _ r hr
/-- No request issued while archiving a node list is denylisted. -/
theorem dsaList_reqs_not_bl (toks : Nat → String) (assets : String → String) :
    ∀ (cs : List Html) (k : Nat), ∀ r ∈ (dsaList toks assets k cs).reqs,
      blacklisted r = false
  | [], k, r, hr => absurd hr (List.not_mem_nil _)
  | c :: cs, k, r, hr => by
    simp only [dsaList, List.mem_append] at hr
    rcases hr with hr | hr
    · exact dsaNode_reqs_not_bl toks assets c k r hr
    · exact dsaList_reqs_not_bl toks assets cs _ r hr
end

mutual
/-- Every asset reference of an archived node is slash-free. -/
theorem dsaNode_out_no_slash (toks : Nat → String) (assets : String → String)
    (ht : ∀ i, '/' ∉ (toks i).toList) :
    ∀ (c : Html) (k : Nat), ∀ r ∈ assetRefsNode (dsaNode toks assets k c).1,
      '/' ∉ r.toList
  | .text s, k, r, hr => absurd hr (List.not_mem_nil _)
  | .elem t a cs, k, r, hr => by
    simp only [dsaNode, assetRefsNode, List.mem_append] at hr
    rcases hr with hr | hr
    · obtain ⟨kv, hkvm, hkve⟩ := List.mem_map.mp hr
      obtain ⟨hkva, hkvp⟩ := List.mem_filter.mp hkvm
      rw [← hkve]
      exact processAttrs_out_no_slash toks assets t ht a k kv hkva hkvp
    · exact dsaList_out_no_slash toks assets ht cs _ r hr
/-- Every asset reference of an archived node list is slash-free. -/
theorem dsaList_out_no_slash (toks : Nat → String) (assets : String → String)
    (ht : ∀ i, '/' ∉ (toks i).toList) :
    ∀ (cs : List Html) (k : Nat), ∀ r ∈ assetRefsList (dsaList toks assets k cs).out,
      '/' ∉ r.toList
  | [], k, r, hr => absurd hr (List.not_mem_nil _)
  | c :: cs, k, r, hr => by
    simp only [dsaList, assetRefsList, List.mem_append] at hr
    rcases hr with hr | hr
    · exact dsaNode_out_no_slash toks assets ht c k r hr
    · exact dsaList_out_no_slash toks assets ht cs _ r hr
end

mutual
/-- Node removal only deletes asset references, node form. -/
theorem rem_refs_node (sel : Selector) :
    ∀ (c : Html) (anc : List Frame) (r : String),
      r ∈ assetRefsNode (removeNode sel anc c) → r ∈ assetRefsNode c
  | .text s, _, r, hr => hr
  | .elem t a cs, anc, r, hr => by
    simp only [removeNode, assetRefsNode, List.mem_append] at hr ⊢
    rcases hr with hr | hr
    · exact Or.inl hr
    · exact Or.inr (rem_refs_list sel cs (anc ++ [(t, a)]) [] r hr)
/-- Node removal only deletes asset references, list form. -/
theorem rem_refs_list (sel : Selector) :
    ∀ (cs : List Html) (anc : List Frame) (prev : List Html) (r : String),
      r ∈ assetRefsList (removeList sel anc prev cs) → r ∈ assetRefsList cs
  | [], _, _, r, hr => hr
  | c :: cs, anc, prev, r, hr => by
    rw [removeList] at hr
    by_cases hc : nodeMatches sel anc prev c = true
    · rw [if_pos hc] at hr
      simp only [assetRefsList, List.mem_append]
      exact Or.inr (rem_refs_list sel cs anc (prev ++ [c]) r hr)
    · rw [if_neg hc] at hr
      simp only [assetRefsList, List.mem_append] at hr ⊢
      rcases hr with hr | hr
      · exact Or.inl (rem_refs_node sel c anc r hr)
      · exact Or.inr (rem_refs_list sel cs anc (prev ++ [c]) r hr)
end

/-- The whole removal loop only deletes asset references. -/
theorem foldl_refs_subset :
    ∀ (sels : List Selector) (d : Doc) (r : String),
      r ∈ assetRefsList (sels.foldl (fun d sel => removeList sel [] [] d) d) →
      r ∈ assetRefsList d
  | [], _, _, hr => hr
  | sel :: sels, d, r, hr => by
    rw [List.foldl_cons] at hr
    exact rem_refs_list sel d [] [] r (foldl_refs_subset sels _ r hr)

/-- C9: a denylisted asset URL (one containing any of the five fixed
substrings) is never fetched during archiving, and no asset reference to
it survives into the sanitized output document.  The URL is assumed to
contain a `/` (true of every URL the crawler meets) and the uuid tokens to
be slash-free (true of `uuid4().hex`). -/
theorem blacklist_spec (toks : Nat → String) (assets : String → String) (d : Doc)
    (u : String) (hb : blacklisted u = true) (hs : '/' ∈ u.toList)
    (ht : ∀ i, '/' ∉ (toks i).toList) :
    u ∉ (download_static_assets toks assets d).reqs ∧
    u ∉ assetRefsList (sanitizeDoc (download_static_assets toks assets d).out) := by
  constructor
  · intro hc
    have := dsaList_reqs_not_bl toks assets d 0 u hc
    rw [hb] at this
    exact absurd this (by simp)
  · intro hc
    have hc' := foldl_refs_subset nodes_to_remove _ u hc
    exact dsaList_out_no_slash toks assets ht d 0 u hc' hs

/-- Witness for C9: the analytics script of `exAssetDoc` is neither
fetched nor referenced after archiving and sanitizing. -/
theorem blacklist_spec_witness :
    blacklisted "http://migranthealth.eu/lib/analytics.js" = true ∧
    "http://migranthealth.eu/lib/analytics.js" ∉
      (download_static_assets (fun _ => "0f1e") (fun _ => "bytes") exAssetDoc).reqs :=
  ⟨by decide,
    (blacklist_spec (fun _ => "0f1e") (fun _ => "bytes") exAssetDoc
      "http://migranthealth.eu/lib/analytics.js" (by decide) (by decide)
      (fun i => (by decide : '/' ∉ "0f1e".toList))).1⟩

/-! ## C2: reproducibility of the archive artifact -/

/-- The attribute rewriter never decreases the token counter. -/
theorem processAttrs_next_ge (toks : Nat → String) (assets : String → String)
    (tag : String) :
    ∀ (attrs : List (String × String)) (k : Nat),
      k ≤ (processAttrs toks assets tag attrs k).next
  | [], k => le_refl k
  | (key, v) :: rest, k => by
    by_cases hA : isAssetAttr tag key = true
    · by_cases hB : blacklisted v = true
      · simp only [processAttrs, if_pos hA, if_pos hB]
        exact processAttrs_next_ge toks assets tag rest k
      · simp only [processAttrs, if_pos hA, if_neg hB]
        refine le_trans ?_ (processAttrs_next_ge toks assets tag rest _)
        split <;> omega
    · simp only [processAttrs, if_neg hA]
      exact processAttrs_next_ge toks assets tag rest k

mutual
/-- Archiving a node never decreases the token counter. -/
theorem dsaNode_next_ge (toks : Nat → String) (assets : String → String) :
    ∀ (c : Html) (k : Nat), k ≤ (dsaNode toks assets k c).2.2.2
  | .text s, k => le_refl k
  | .elem t a cs, k => by
    simp only [dsaNode]
    exact le_trans (processAttrs_next_ge toks assets t a k)
      (dsaList_next_ge toks assets cs _)
/-- Archiving a node list never decreases the token counter. -/
theorem dsaList_next_ge (toks : Nat → String) (assets : String → String) :
    ∀ (cs : List Html) (k : Nat), k ≤ (dsaList toks assets k cs).next
  | [], k => le_refl k
  | c :: cs, k => by
    simp only [dsaList]
    exact le_trans (dsaNode_next_ge toks assets c k)
      (dsaList_next_ge toks assets cs _)
end

/-- The attribute rewriter depends only on the tokens it consumes and the
asset contents it requests. -/
theorem processAttrs_ext (t₁ t₂ : Nat → String) (a₁ a₂ : String → String)
    (tag : String) :
    ∀ (attrs : List (String × String)) (k : Nat),
      (∀ i, k ≤ i → i < (processAttrs t₁ a₁ tag attrs k).next → t₁ i = t₂ i) →
      (∀ u ∈ (processAttrs t₁ a₁ tag attrs k).reqs, a₁ u = a₂ u) →
      processAttrs t₂ a₂ tag attrs k = processAttrs t₁ a₁ tag attrs k
  | [], k, _, _ => rfl
  | (key, v) :: rest, k, htok, hass => by
    by_cases hA : isAssetAttr tag key = true
    · by_cases hB : blacklisted v = true
      · simp only [processAttrs, if_pos hA, if_pos hB] at htok hass ⊢
        exact processAttrs_ext t₁ t₂ a₁ a₂ tag rest k htok hass
      · simp only [processAttrs, if_pos hA, if_neg hB] at htok hass ⊢
        have hk1ge : k ≤ (if urlLastSegment v = "all".toList then k else k + 1) := by
          split <;> omega
        have hnext := processAttrs_next_ge t₁ a₁ tag rest
          (if urlLastSegment v = "all".toList then k else k + 1)
        have hrec := processAttrs_ext t₁ t₂ a₁ a₂ tag rest
          (if urlLastSegment v = "all".toList then k else k + 1)
          (fun i h1 h2 => htok i (le_trans hk1ge h1) h2)
          (fun u hu => hass u (List.mem_cons_of_mem _ hu))
        have hv : a₂ v = a₁ v := (hass v (List.mem_cons_self _ _)).symm
        have hfname : derive_filename (t₂ k) v = derive_filename (t₁ k) v := by
          by_cases hall : urlLastSegment v = "all".toList
          · rw [derive_filename, derive_filename, if_pos hall, if_pos hall]
          · have hk : t₁ k = t₂ k := by
              refine htok k (le_refl k) ?_
              rw [if_neg hall] at hnext ⊢
              omega
            rw [← hk]
        rw [hrec, hv, hfname]
    · simp only [processAttrs, if_neg hA] at htok hass ⊢
      rw [processAttrs_ext t₁ t₂ a₁ a₂ tag rest k htok hass]

mutual
/-- Archiving a node depends only on the tokens consumed and the asset
contents requested. -/
theorem dsaNode_ext (t₁ t₂ : Nat → String) (a₁ a₂ : String → String) :
    ∀ (c : Html) (k : Nat),
      (∀ i, k ≤ i → i < (dsaNode t₁ a₁ k c).2.2.2 → t₁ i = t₂ i) →
      (∀ u ∈ (dsaNode t₁ a₁ k c).2.1, a₁ u = a₂ u) →
      dsaNode t₂ a₂ k c = dsaNode t₁ a₁ k c
  | .text s, _, _, _ => rfl
  | .elem t a cs, k, htok, hass => by
    simp only [dsaNode] at htok hass ⊢
    have hpnext := processAttrs_next_ge t₁ a₁ t a k
    have hlnext := dsaList_next_ge t₁ a₁ cs (processAttrs t₁ a₁ t a k).next
    have hp := processAttrs_ext t₁ t₂ a₁ a₂ t a k
      (fun i h1 h2 => htok i h1 (lt_of_lt_of_le h2 hlnext))
      (fun u hu => hass u (List.mem_append_left _ hu))
    have hl := dsaList_ext t₁ t₂ a₁ a₂ cs (processAttrs t₁ a₁ t a k).next
      (fun i h1 h2 => htok i (le_trans hpnext h1) h2)
      (fun u hu => hass u (List.mem_append_right _ hu))
    rw [hp, hl]
/-- Archiving a node list depends only on the tokens consumed and the
asset contents requested. -/
theorem dsaList_ext (t₁ t₂ : Nat → String) (a₁ a₂ : String → String) :
    ∀ (cs : List Html) (k : Nat),
      (∀ i, k ≤ i → i < (dsaList t₁ a₁ k cs).next → t₁ i = t₂ i) →
      (∀ u ∈ (dsaList t₁ a₁ k cs).reqs, a₁ u = a₂ u) →
      dsaList t₂ a₂ k cs = dsaList t₁ a₁ k cs
  | [], _, _, _ => rfl
  | c :: cs, k, htok, hass => by
    simp only [dsaList] at htok hass ⊢
    have hnnext := dsaNode_next_ge t₁ a₁ c k
    have hlnext := dsaList_next_ge t₁ a₁ cs (dsaNode t₁ a₁ k c).2.2.2
    have hn := dsaNode_ext t₁ t₂ a₁ a₂ c k
      (fun i h1 h2 => htok i h1 (lt_of_lt_of_le h2 hlnext))
      (fun u hu => hass u (List.mem_append_left _ hu))
    have hl := dsaList_ext t₁ t₂ a₁ a₂ cs (dsaNode t₁ a₁ k c).2.2.2
      (fun i h1 h2 => htok i (le_trans hnnext h1) h2)
      (fun u hu => hass u (List.mem_append_right _ hu))
    rw [hn, hl]
end

/-- C2 (counterexample): two archiving runs over the same unchanged page
and the same asset contents produce different artifacts when the freshly
drawn uuid tokens differ — as they do across real runs, since
`derive_filename` embeds a fresh `uuid.uuid4().hex` in each asset
filename. -/
theorem artifact_counterexample :
    download_content_node_artifact exAssetPages (fun _ => "bytes")
        (fun _ => "aaaa") "u" ≠
      download_content_node_artifact exAssetPages (fun _ => "bytes")
        (fun _ => "bbbb") "u" := by
  intro h
  have hf := congrArg Artifact.files h
  exact absurd hf (by decide)

/-- C2 (amended): the archive artifact is a deterministic function of the
fetched page, the asset contents actually requested, and the unique-token
sequence actually consumed: two runs that agree on those (and
`create_predictable_zip` being deterministic in directory contents)
produce identical artifacts.  Byte-identical re-archiving therefore holds
only for a fixed token sequence; with fresh random tokens the artifacts
differ whenever an asset filename embeds a token. -/
theorem artifact_deterministic (p₁ p₂ : String → Doc) (a₁ a₂ : String → String)
    (t₁ t₂ : Nat → String) (url : String)
    (hp : p₂ url = p₁ url)
    (htok : ∀ i, i < (download_static_assets t₁ a₁ (p₁ url)).next → t₁ i = t₂ i)
    (hass : ∀ u ∈ (download_static_assets t₁ a₁ (p₁ url)).reqs, a₁ u = a₂ u) :
    download_content_node_artifact p₂ a₂ t₂ url =
      download_content_node_artifact p₁ a₁ t₁ url := by
  unfold download_content_node_artifact
  rw [hp]
  have h := dsaList_ext t₁ t₂ a₁ a₂ (p₁ url) 0
    (fun i _ h2 => htok i h2) hass
  have h' : download_static_assets t₂ a₂ (p₁ url) =
      download_static_assets t₁ a₁ (p₁ url) := h
  rw [h']

/-- Witness for C2 (amended): two token streams that agree on the single
consumed token (index 0) but differ beyond it give identical artifacts. -/
theorem artifact_deterministic_witness :
    download_content_node_artifact exAssetPages (fun _ => "bytes")
        (fun i => if i = 0 then "aa" else "xx") "u" =
      download_content_node_artifact exAssetPages (fun _ => "bytes")
        (fun i => if i = 0 then "aa" else "yy") "u" := by
  refine artifact_deterministic exAssetPages exAssetPages (fun _ => "bytes")
    (fun _ => "bytes") (fun i => if i = 0 then "aa" else "yy")
    (fun i => if i = 0 then "aa" else "xx") "u" rfl ?_ (fun u _ => rfl)
  intro i hi
  have hn : (download_static_assets (fun i => if i = 0 then "aa" else "yy")
      (fun _ => "bytes") (exAssetPages "u")).next = 1 := rfl
  rw [hn] at hi
  have : i = 0 := by omega
  rw [this]
  rfl
